import Mathlib

/-!
Shallow embedding of the inflyte-dj-monitor program (src/main.rs) for
specification checking.  Rust HashSet values are modelled as Lean lists
with insert-if-absent (membership is the only property the program relies
on); Rust strings are modelled as Lean String or List Char; JSON documents
produced and consumed through serde_json are modelled by an explicit Json
value type together with encode/decode functions mirroring the derived
Serialize/Deserialize instances; the effectful monitor cycle
(check_for_new_djs) is modelled as a pure function over the results of its
collaborator calls (page fetch, blob read, email send).
-/

namespace Inflyte

/-- One extracted supporter record; mirrors struct DjSupport in main.rs
(name: String, comment: Option String, stars: Option u8 -- the u8 is
modelled as Nat, with the wrap-around of the as-u8 cast made explicit
where it occurs). -/
structure DjSupport where
  name : String
  comment : Option String
  stars : Option Nat
deriving DecidableEq, Repr

/-- HashSet::insert modelled on lists: add the element only when it is not
already present (structural equality, as derived for DjSupport). -/
def listInsert (x : DjSupport) (s : List DjSupport) : List DjSupport :=
  if x ∈ s then s else s ++ [x]

/-- current_djs.difference(&previous_djs) at line 752 of main.rs:
the elements of current that are not members of previous, under full
structural equality on (name, comment, stars). -/
def newDjs (current previous : List DjSupport) : List DjSupport :=
  current.filter (fun r => decide (¬ r ∈ previous))

/-! ## JSON model (serde_json documents) -/

/-- JSON values, as far as the program's documents need them. -/
inductive Json where
  | null : Json
  | str (s : String) : Json
  | num (n : Int) : Json
  | bool (b : Bool) : Json
  | arr (xs : List Json) : Json
  | obj (fields : List (String × Json)) : Json

/-- The keys of a top-level JSON object (in serialization order). -/
def Json.topKeys : Json → List String
  | .obj fs => fs.map Prod.fst
  | _ => []

/-- Field lookup in a JSON object's field list (first occurrence). -/
def jlookup (fs : List (String × Json)) (k : String) : Option Json :=
  (fs.find? (fun p => decide (p.1 = k))).map Prod.snd

/-- Serialize one DjSupport as serde_json does for the derived Serialize:
an object with the fields in declaration order, None as null. -/
def encodeDjSupport (r : DjSupport) : Json :=
  .obj [("name", .str r.name),
        ("comment", match r.comment with | none => .null | some c => .str c),
        ("stars", match r.stars with | none => .null | some k => .num (Int.ofNat k))]

/-- The document built and uploaded by save_djs (lines 477-498 of main.rs):
serde_json::to_string_pretty(&DjStorage \x7b djs \x7d).  The single field of
struct DjStorage is named djs, so the record array is serialized under the
top-level key "djs". -/
def save_djs (djs : List DjSupport) : Json :=
  .obj [("djs", .arr (djs.map encodeDjSupport))]

/-- Deserialize one DjSupport (derived Deserialize): requires an object
with a string "name"; "comment" may be absent, null or a string; "stars"
may be absent, null or an integer representable as u8 (0..255); unknown
fields are ignored. -/
def decodeDjSupport (j : Json) : Option DjSupport :=
  match j with
  | .obj fs =>
    match jlookup fs "name" with
    | some (.str name) =>
      match (match jlookup fs "comment" with
             | none => some none
             | some .null => some none
             | some (.str c) => some (some c)
             | some _ => none : Option (Option String)) with
      | none => none
      | some comment =>
        match (match jlookup fs "stars" with
               | none => some none
               | some .null => some none
               | some (.num n) => if 0 ≤ n ∧ n < 256 then some (some n.toNat) else none
               | some _ => none : Option (Option Nat)) with
        | none => none
        | some stars => some ⟨name, comment, stars⟩
    | _ => none
  | _ => none

/-- Sequence a fallible decoder over a list, failing when any element
fails (how serde deserializes a JSON array element by element). -/
def optMapM {α β : Type} (f : α → Option β) : List α → Option (List β)
  | [] => some []
  | a :: as =>
    match f a with
    | none => none
    | some b =>
      match optMapM f as with
      | none => none
      | some bs => some (b :: bs)

/-- Deserialize struct DjStorage (the new snapshot format): an object
whose "djs" field is an array in which every element deserializes as a
DjSupport; the HashSet collect is modelled by List.dedup. -/
def decodeDjStorage (j : Json) : Option (List DjSupport) :=
  match j with
  | .obj fs =>
    match jlookup fs "djs" with
    | some (.arr xs) => (optMapM decodeDjSupport xs).map List.dedup
    | _ => none
  | _ => none

/-- String extraction used by the legacy-format deserializer. -/
def asString : Json → Option String
  | .str s => some s
  | _ => none

/-- Deserialize the local OldDjStorage struct of load_previous_djs (the
legacy snapshot format): an object whose "djs" field is an array of bare
strings; the HashSet collect is modelled by List.dedup. -/
def decodeOldDjStorage (j : Json) : Option (List String) :=
  match j with
  | .obj fs =>
    match jlookup fs "djs" with
    | some (.arr xs) => (optMapM asString xs).map List.dedup
    | _ => none
  | _ => none

/-- What the blob store hands back when the read itself succeeds: bytes
that are not valid UTF-8, a UTF-8 string that is not parseable JSON, or a
parsed JSON document. -/
inductive BlobContent where
  | badUtf8 : BlobContent
  | badJson : BlobContent
  | json (j : Json) : BlobContent

/-- load_previous_djs (lines 425-474 of main.rs), as a function of the
blob read result.  An Err from get_content -- any read failure, the code
does not distinguish a missing blob from other store errors -- yields
Ok(empty set), the first-run path.  On successfully read content: invalid
UTF-8 fails the cycle; then the new format is tried, then the legacy
format (bare names migrated to records with absent comment/stars), and if
both parses fail the function bails with an error. -/
def load_previous_djs (blob : Except Unit BlobContent) : Except Unit (List DjSupport) :=
  match blob with
  | .error _ => .ok []
  | .ok .badUtf8 => .error ()
  | .ok .badJson => .error ()
  | .ok (.json j) =>
    match decodeDjStorage j with
    | some djs => .ok djs
    | none =>
      match decodeOldDjStorage j with
      | some names => .ok (names.map (fun n => ⟨n, none, none⟩))
      | none => .error ()

/-- Observable outcome of one check_for_new_djs cycle for one campaign:
the set passed to save_djs if it was called, whether send_email_alert was
invoked, whether it reported success, and whether the cycle returned Ok. -/
structure CycleOutcome where
  saved : Option (List DjSupport)
  emailAttempted : Bool
  emailSent : Bool
  ok : Bool
deriving DecidableEq, Repr

/-- check_for_new_djs (lines 725-809 of main.rs) as a function of the
fetch result (the extracted current set or a fetch error), the blob read
result, and whether the notification send succeeds.  A fetch or load
error ends the cycle before anything is persisted.  If the loaded
previous set is empty the cycle is the initial run: no email, the current
set is saved as baseline.  Otherwise the structural difference is
computed; when it is non-empty an email is attempted (its failure is only
logged), and in every non-initial case the current set is saved. -/
def check_for_new_djs (fetched : Except Unit (List DjSupport))
    (blob : Except Unit BlobContent) (notifyOk : Bool) : CycleOutcome :=
  match fetched with
  | .error _ => ⟨none, false, false, false⟩
  | .ok current =>
    match load_previous_djs blob with
    | .error _ => ⟨none, false, false, false⟩
    | .ok previous =>
      if previous.isEmpty then ⟨some current, false, false, true⟩
      else
        if (newDjs current previous).isEmpty then ⟨some current, false, false, true⟩
        else ⟨some current, true, notifyOk, true⟩

/-! ## Campaign identifiers and blob names -/

/-- Split a character list at every occurrence of a separator character
(str::split semantics: n separators yield n+1 pieces). -/
def chSplit (sep : Char) : List Char → List (List Char)
  | [] => [[]]
  | c :: cs =>
    match chSplit sep cs with
    | [] => [[]]
    | h :: t => if c = sep then [] :: h :: t else (c :: h) :: t

/-- url.trim_end_matches('/'): remove every trailing slash. -/
def trimEndSlashes (url : List Char) : List Char :=
  (url.reverse.dropWhile (fun c => decide (c = '/'))).reverse

/-- extract_campaign_name (lines 122-128 of main.rs):
url.trim_end_matches('/').rsplit('/').next().unwrap_or("unknown").
rsplit('/').next() is the piece after the last slash, i.e. the last piece
of the forward split; the "unknown" default corresponds to the (never
occurring) case of the split being empty. -/
def extract_campaign_name (url : List Char) : List Char :=
  (chSplit '/' (trimEndSlashes url)).getLastD ("unknown".toList)

/-- A campaign as constructed in Config::from_env: the url together with
the identifier derived from it.  (track_title never enters storage keys
and is omitted.) -/
structure Campaign where
  url : List Char
  name : List Char
deriving DecidableEq

/-- Campaign construction from a url (Config::from_env, lines 69-79). -/
def mkCampaign (url : List Char) : Campaign :=
  ⟨url, extract_campaign_name url⟩

/-- get_blob_name (lines 211-213 of main.rs):
format!("\x7b\x7d_\x7b\x7d.json", config.blob_name_prefix, campaign.name). -/
def get_blob_name (pfx : List Char) (c : Campaign) : List Char :=
  pfx ++ '_' :: (c.name ++ ".json".toList)

/-- The "last non-empty path segment" of a URL, written from the spec's
words for comparison with extract_campaign_name: the last piece of the
slash-split that is non-empty. -/
def lastNonEmptySegment (url : List Char) : Option (List Char) :=
  ((chSplit '/' url).filter (fun s => !s.isEmpty)).getLast?

/-! ## Page extractor (fetch_dj_list, lines 216-422 of main.rs)

The HTML the scraper crate hands to the extraction code is modelled as an
ordered tree of elements and text nodes.  ElementRef::select(sel) is the
list of strict descendant elements matching sel in document order;
ElementRef::text().collect::<String>() is the concatenation of descendant
text in document order; NodeRef::next_sibling iteration is iteration over
the remainder of the parent's child list. -/

/-- A parsed HTML node: an element with a tag and children, or text. -/
inductive Node where
  | text (s : String) : Node
  | elem (tag : String) (children : List Node) : Node

-- Concatenated descendant text of a node, in document order
-- (the scraper text() iterator collected into a String).
mutual
def nodeText : Node → List Char
  | .text s => s.toList
  | .elem _ cs => nodesText cs
def nodesText : List Node → List Char
  | [] => []
  | n :: ns => nodeText n ++ nodesText ns
end

-- All strict descendant elements of a node, pre-order.
mutual
def strictDescElems : Node → List Node
  | .text _ => []
  | .elem _ cs => descList cs
def descList : List Node → List Node
  | [] => []
  | n :: ns =>
    match n with
    | .text s => strictDescElems (.text s) ++ descList ns
    | .elem tag cs => .elem tag cs :: strictDescElems (.elem tag cs) ++ descList ns
end

/-- Whether a node is an element with the given tag. -/
def isTag (t : String) : Node → Bool
  | .elem tag _ => tag == t
  | .text _ => false

/-- elem.select(&Selector::parse(t)): strict descendant elements with tag t. -/
def selectTag (t : String) (n : Node) : List Node :=
  (strictDescElems n).filter (isTag t)

/-- elem.select(&img_selector).next().is_some(). -/
def hasImgDesc (n : Node) : Bool :=
  !(selectTag "img" n).isEmpty

/-- char::is_whitespace of Rust (the Unicode White_Space property). -/
def rustIsWhitespace (c : Char) : Bool :=
  let n := c.toNat
  n == 0x20 || (0x9 ≤ n && n ≤ 0xD) || n == 0x85 || n == 0xA0 || n == 0x1680 ||
    (0x2000 ≤ n && n ≤ 0x200A) || n == 0x2028 || n == 0x2029 || n == 0x202F ||
    n == 0x205F || n == 0x3000

/-- str::trim: strip whitespace from both ends. -/
def chTrim (l : List Char) : List Char :=
  ((l.dropWhile rustIsWhitespace).reverse.dropWhile rustIsWhitespace).reverse

/-- UTF-8 byte count of one character (what str::len counts per char). -/
def charBytes (c : Char) : Nat :=
  if c.toNat < 0x80 then 1
  else if c.toNat < 0x800 then 2
  else if c.toNat < 0x10000 then 3
  else 4

/-- str::len of Rust: the UTF-8 byte length. -/
def utf8Len (l : List Char) : Nat :=
  (l.map charBytes).sum

/-- Vec::join(" ") on the collected comment lines. -/
def chJoinSpace : List (List Char) → List Char
  | [] => []
  | [l] => l
  | l :: ls => l ++ ' ' :: chJoinSpace ls

/-- Fuel-driven worker for chReplace (fuel bounds the scanned length so
that the recursion is structural). -/
def chReplaceAux (pat rep : List Char) : Nat → List Char → List Char
  | 0, l => l
  | _ + 1, [] => []
  | fuel + 1, c :: cs =>
    if pat.isPrefixOf (c :: cs) && !pat.isEmpty then
      rep ++ chReplaceAux pat rep fuel (cs.drop (pat.length - 1))
    else
      c :: chReplaceAux pat rep fuel cs

/-- str::replace(pat, rep): replace every non-overlapping occurrence,
scanning left to right. -/
def chReplace (pat rep l : List Char) : List Char :=
  chReplaceAux pat rep l.length l

/-- The suffix after the first occurrence of pat, if pat occurs
(drives both str::contains(pat) and split(pat).nth(1)). -/
def firstOccSuffix (pat : List Char) : List Char → Option (List Char)
  | [] => if pat.isEmpty then some [] else none
  | c :: cs =>
    if pat.isPrefixOf (c :: cs) then some ((c :: cs).drop pat.length)
    else firstOccSuffix pat cs

/-- The prefix up to (excluding) the next occurrence of pat, or the whole
list if pat does not occur. -/
def takeUntilOcc (pat : List Char) : List Char → List Char
  | [] => []
  | c :: cs =>
    if pat.isPrefixOf (c :: cs) then []
    else c :: takeUntilOcc pat cs

/-- The shared card-parsing logic of tiers 1 and 2 (lines 284-327 and
330-372 of main.rs): split the card's full text into trimmed non-empty
lines; require at least minLines of them (1 for a nested profile card,
2 for the whole-subtree fallback); the name is the first line up to the
first star glyph, trimmed; the comment joins the following lines with
single spaces, stopping before a line that starts with "Support from",
normalized to absent when empty; stars counts the star glyphs in the full
text, cast as u8 (modelled by mod 256), zero mapping to absent.  The
record is produced only if the name is non-empty and its UTF-8 byte
length (str::len) is under 100. -/
def extractCard (full : List Char) (minLines : Nat) : Option DjSupport :=
  let lines := ((chSplit '\n' full).map chTrim).filter (fun l => !l.isEmpty)
  if minLines ≤ lines.length then
    match lines with
    | [] => none
    | nameLine :: rest =>
      let name := chTrim ((chSplit '⭐' nameLine).headD nameLine)
      let commentParts := rest.takeWhile (fun l => !(("Support from".toList).isPrefixOf l))
      let commentText := chTrim (chJoinSpace commentParts)
      let stars := (full.filter (fun c => c == '⭐')).length % 256
      if !name.isEmpty && decide (utf8Len name < 100) then
        some ⟨String.mk name,
              if commentText.isEmpty then none else some (String.mk commentText),
              if stars == 0 then none else some stars⟩
      else none
  else none

/-- Insert the record parsed from one card text, if any. -/
def applyCard (minLines : Nat) (djs : List DjSupport) (full : List Char) : List DjSupport :=
  match extractCard full minLines with
  | some r => listInsert r djs
  | none => djs

/-- Tiers 1-2 for one sibling element (lines 252-374 of main.rs): only
when the element has an image descendant; the innermost descendant divs
that contain an image but no nested image-bearing div are each parsed as
one profile card (tier 1, at least one line); when there is no
image-bearing descendant div the whole element text is parsed as a single
entry requiring at least two lines (tier 2). -/
def tier12 (djs : List DjSupport) (e : Node) : List DjSupport :=
  if hasImgDesc e then
    let divsWithImg := (selectTag "div" e).filter hasImgDesc
    if !divsWithImg.isEmpty then
      let innermost := divsWithImg.filter
        (fun d => ((selectTag "div" d).filter hasImgDesc).isEmpty)
      innermost.foldl (fun acc d => applyCard 1 acc (nodeText d)) djs
    else
      applyCard 2 djs (nodeText e)
  else djs

/-- Tier 3 for one sibling element (lines 376-406 of main.rs): when the
element text contains "Support from", take the text between the first and
second occurrence (split(..).nth(1)), turn " and " into ", ", split on
commas, trim, and keep each piece that is non-empty, does not start with
"Get Mad" or "Currently subscribed", and has byte length under 100; each
kept piece is inserted as a bare record unless a record with that name
(name equality only) is already present. -/
def tier3 (djs : List DjSupport) (text : List Char) : List DjSupport :=
  match firstOccSuffix ("Support from".toList) text with
  | none => djs
  | some suffixText =>
    let afterSupport := takeUntilOcc ("Support from".toList) suffixText
    let normalized := chReplace (" and ".toList) (", ".toList) afterSupport
    let names := ((chSplit ',' normalized).map chTrim).filter (fun s =>
      !s.isEmpty && !(("Get Mad".toList).isPrefixOf s) &&
        !(("Currently subscribed".toList).isPrefixOf s) && decide (utf8Len s < 100))
    names.foldl (fun acc nm =>
      if acc.any (fun dj => dj.name == String.mk nm) then acc
      else listInsert ⟨String.mk nm, none, none⟩ acc) djs

/-- Processing of one element sibling of the Support heading: tiers 1-2,
then the tier-3 check on the same element's text. -/
def processElem (djs : List DjSupport) (e : Node) : List DjSupport :=
  tier3 (tier12 djs e) (nodeText e)

/-- The sibling walk after the Support h3 (lines 236-415 of main.rs):
stop at the next h3 element, process every other element node, skip text
nodes. -/
def processSiblings (djs : List DjSupport) : List Node → List DjSupport
  | [] => djs
  | .text _ :: ns => processSiblings djs ns
  | .elem tag cs :: ns =>
    if tag == "h3" then djs
    else processSiblings (processElem djs (.elem tag cs)) ns

/-- Whether a node is an h3 element whose trimmed text is "Support". -/
def isSupportH3 (n : Node) : Bool :=
  match n with
  | .elem tag cs => tag == "h3" && chTrim (nodesText cs) == "Support".toList
  | .text _ => false

-- Find the first (document pre-order) Support h3 and return the list of
-- its following siblings (document.select over h3 plus next_sibling
-- iteration).
mutual
def findSupportSibs : Node → Option (List Node)
  | .text _ => none
  | .elem _ cs => findInSibs cs
def findInSibs : List Node → Option (List Node)
  | [] => none
  | n :: ns =>
    if isSupportH3 n then some ns
    else
      match findSupportSibs n with
      | some r => some r
      | none => findInSibs ns
end

/-- fetch_dj_list as a function of the fetched document: the accumulated
record set from walking the siblings of the first Support heading, empty
when there is no such heading. -/
def fetch_dj_list (doc : Node) : List DjSupport :=
  match findSupportSibs doc with
  | none => []
  | some sibs => processSiblings [] sibs

/-! ## Concrete scenario documents (the spec's Ben example) -/

/-- A tier-1 profile card: one image, name line "Ben", comment line
"cool". -/
def cardDiv : Node := .elem "div" [.elem "img" [], .text "Ben\n", .text "cool"]

/-- A section container holding the single profile card. -/
def cardSection : Node := .elem "div" [cardDiv]

/-- A plain-list element whose text names "Ben" after the fixed phrase. -/
def listP : Node := .elem "p" [.text "Support from Ben"]

/-- The Support section heading. -/
def supportH3 : Node := .elem "h3" [.text "Support"]

/-- Document in which the plain-list element precedes the profile card
among the Support heading's siblings. -/
def docListFirst : Node := .elem "html" [.elem "body" [supportH3, listP, cardSection]]

/-- Document in which the profile card precedes the plain-list element. -/
def docCardFirst : Node := .elem "html" [.elem "body" [supportH3, cardSection, listP]]

/-- Document in which the profile card and the plain-list text share one
sibling element. -/
def docSameElem : Node :=
  .elem "html" [.elem "body" [supportH3, .elem "div" [cardDiv, .text "\nSupport from Ben"]]]

/-- Name guard established by every extraction tier: the name is
non-empty and its UTF-8 byte length (Rust str::len) is under 100. -/
def GoodName (r : DjSupport) : Prop :=
  r.name ≠ "" ∧ utf8Len r.name.toList < 100

/-- Append a character to the last piece of a split (proof support for
relating chSplit on url ++ [d] to chSplit on url). -/
def modifyLastApp (d : Char) : List (List Char) → List (List Char)
  | [] => [[d]]
  | [l] => [l ++ [d]]
  | l :: l2 :: ls => l :: modifyLastApp d (l2 :: ls)

end Inflyte

deriving instance DecidableEq for Except

namespace Inflyte

/-! ## Shared lemmas -/

theorem mem_listInsert {r x : DjSupport} {s : List DjSupport}
    (h : r ∈ listInsert x s) : r = x ∨ r ∈ s := by
  unfold listInsert at h
  split at h
  · exact Or.inr h
  · rcases List.mem_append.mp h with h1 | h1
    · exact Or.inr h1
    · exact Or.inl (List.mem_singleton.mp h1)

theorem mem_newDjs {r : DjSupport} {current previous : List DjSupport} :
    r ∈ newDjs current previous ↔ (r ∈ current ∧ r ∉ previous) := by
  simp [newDjs, List.mem_filter]

/-- Pointwise mapM inversion: mapping an encoder and then decoding each
element recovers the original list when decode inverts encode on every
element. -/
theorem optMapM_map_eq_some {α β : Type} (g : α → β) (f : β → Option α) :
    ∀ l : List α, (∀ a ∈ l, f (g a) = some a) → optMapM f (l.map g) = some l := by
  intro l
  induction l with
  | nil => intro _; rfl
  | cons a as ih =>
    intro h
    have ha := h a (List.mem_cons_self a as)
    have has := ih (fun b hb => h b (List.mem_cons_of_mem a hb))
    simp [optMapM, ha, has]

theorem decodeDjSupport_encode (r : DjSupport) (h : r.stars.getD 0 < 256) :
    decodeDjSupport (encodeDjSupport r) = some r := by
  obtain ⟨name, comment, stars⟩ := r
  cases comment <;> cases stars <;>
    simp_all [encodeDjSupport, decodeDjSupport, jlookup, List.find?]

/-! ## Claim theorems -/

/-- C6: the diff computed by check_for_new_djs is the set difference
current minus previous under full structural equality on
(name, comment, stars): membership characterization, idempotence
diff(S, S) = empty, and the Ana example (same name, different payload,
counted as new, size 1). -/
theorem C6_diff_is_structural_difference :
    (∀ (current previous : List DjSupport) (r : DjSupport),
        r ∈ newDjs current previous ↔ (r ∈ current ∧ r ∉ previous))
    ∧ (∀ S : List DjSupport, newDjs S S = [])
    ∧ newDjs [⟨"Ana", some "Great track!", some 3⟩] [⟨"Ana", none, none⟩]
        = [⟨"Ana", some "Great track!", some 3⟩] := by
  refine ⟨fun current previous r => mem_newDjs, fun S => ?_, by decide⟩
  simp [newDjs, List.filter_eq_nil_iff]

/-- C5: when the loaded previous set is empty the cycle is classified as
initial: no notification is attempted regardless of the extracted
current set, the current set is persisted as baseline, and the cycle
returns Ok. -/
theorem C5_empty_previous_is_initial (current : List DjSupport)
    (blob : Except Unit BlobContent) (notifyOk : Bool)
    (h : load_previous_djs blob = .ok []) :
    check_for_new_djs (.ok current) blob notifyOk
      = ⟨some current, false, false, true⟩ := by
  simp [check_for_new_djs, h]

/-- Closed instance of C5 at a stored empty snapshot and a non-empty
current set. -/
theorem C5_empty_previous_is_initial_witness :
    load_previous_djs (.ok (.json (Json.obj [("djs", Json.arr [])]))) = .ok []
    ∧ check_for_new_djs (.ok [⟨"Ana", some "Great track!", some 3⟩])
        (.ok (.json (Json.obj [("djs", Json.arr [])]))) true
      = ⟨some [⟨"Ana", some "Great track!", some 3⟩], false, false, true⟩ :=
  ⟨by decide, C5_empty_previous_is_initial _ _ _ (by decide)⟩

/-- C2 counterexample: when the blob read itself fails (the code's
Err(_) arm of get_content, which covers genuine store errors, not only a
missing blob), load_previous_djs returns the empty set, the cycle is
classified as the first-run path, and a snapshot IS persisted -- the
claim says the cycle should end without persisting. -/
theorem C2_store_read_error_counterexample :
    load_previous_djs (.error ()) = .ok []
    ∧ check_for_new_djs (.ok [⟨"Ana", none, none⟩]) (.error ()) true
        = ⟨some [⟨"Ana", none, none⟩], false, false, true⟩
    ∧ (check_for_new_djs (.ok [⟨"Ana", none, none⟩]) (.error ()) true).saved ≠ none :=
  ⟨by decide, by decide, by decide⟩

/-- C2 amended: any failure of the blob read is treated as the
first-run/empty-snapshot path (the current set is persisted as baseline
with no notification and the cycle returns Ok); only failures to decode
successfully read content -- invalid UTF-8 or JSON that parses in
neither format -- end the cycle for that target without persisting a
snapshot. -/
theorem C2_store_error_first_run_amended (current : List DjSupport) (notifyOk : Bool) :
    check_for_new_djs (.ok current) (.error ()) notifyOk
        = ⟨some current, false, false, true⟩
    ∧ check_for_new_djs (.ok current) (.ok .badUtf8) notifyOk
        = ⟨none, false, false, false⟩
    ∧ check_for_new_djs (.ok current) (.ok .badJson) notifyOk
        = ⟨none, false, false, false⟩ := by
  refine ⟨?_, ?_, ?_⟩ <;> simp [check_for_new_djs, load_previous_djs]

/-- C7: in a non-initial cycle with new records, the email send is
attempted, and even when it fails the newly extracted snapshot is still
handed to save_djs -- the notification failure never prevents the save. -/
theorem C7_notify_failure_still_saves (current previous : List DjSupport)
    (blob : Except Unit BlobContent)
    (hload : load_previous_djs blob = .ok previous) (hne : previous ≠ [])
    (hnew : newDjs current previous ≠ []) :
    check_for_new_djs (.ok current) blob false
      = ⟨some current, true, false, true⟩ := by
  simp [check_for_new_djs, hload, List.isEmpty_iff, hne, hnew]

/-- Closed instance of C7: previous holds Old, current adds New, the
send fails, and the outcome still saves the current set. -/
theorem C7_notify_failure_still_saves_witness :
    load_previous_djs (.ok (.json (save_djs [⟨"Old", none, none⟩])))
        = .ok [⟨"Old", none, none⟩]
    ∧ ([⟨"Old", none, none⟩] : List DjSupport) ≠ []
    ∧ newDjs [⟨"Old", none, none⟩, ⟨"New", none, none⟩] [⟨"Old", none, none⟩] ≠ []
    ∧ check_for_new_djs (.ok [⟨"Old", none, none⟩, ⟨"New", none, none⟩])
        (.ok (.json (save_djs [⟨"Old", none, none⟩]))) false
      = ⟨some [⟨"Old", none, none⟩, ⟨"New", none, none⟩], true, false, true⟩ :=
  ⟨by decide, by decide, by decide,
    C7_notify_failure_still_saves
      [⟨"Old", none, none⟩, ⟨"New", none, none⟩] [⟨"Old", none, none⟩]
      (.ok (.json (save_djs [⟨"Old", none, none⟩])))
      (by decide) (by decide) (by decide)⟩

/-- C1 counterexample: the document save_djs uploads stores the record
array under the top-level key "djs" (the single field of struct
DjStorage), not under "records" as the claim states. -/
theorem C1_records_key_counterexample :
    (save_djs [⟨"Ana", some "Great track!", some 3⟩]).topKeys = ["djs"]
    ∧ "records" ∉ (save_djs [⟨"Ana", some "Great track!", some 3⟩]).topKeys :=
  ⟨by decide, by decide⟩

/-- C1 amended: the persisted document is a JSON object whose single
top-level key is "djs" (not "records"), holding the array of records
with fields name, comment, stars; reading that document back with the
program's own new-format deserializer recovers exactly the saved record
set. -/
theorem C1_save_shape_amended (djs : List DjSupport)
    (h : ∀ r ∈ djs, r.stars.getD 0 < 256) :
    (save_djs djs).topKeys = ["djs"]
    ∧ ∃ S, decodeDjStorage (save_djs djs) = some S ∧ ∀ r, r ∈ S ↔ r ∈ djs := by
  refine ⟨rfl, djs.dedup, ?_, fun r => List.mem_dedup⟩
  have hm : optMapM decodeDjSupport (djs.map encodeDjSupport) = some djs :=
    optMapM_map_eq_some _ _ djs (fun r hr => decodeDjSupport_encode r (h r hr))
  simp [decodeDjStorage, save_djs, jlookup, List.find?, hm]

/-- Closed instance of C1's amended statement at a one-record set. -/
theorem C1_save_shape_amended_witness :
    (save_djs [⟨"Ana", some "Great track!", some 3⟩]).topKeys = ["djs"]
    ∧ ∃ S, decodeDjStorage (save_djs [⟨"Ana", some "Great track!", some 3⟩]) = some S
        ∧ ∀ r, r ∈ S ↔ r ∈ [(⟨"Ana", some "Great track!", some 3⟩ : DjSupport)] :=
  C1_save_shape_amended _ (by decide)

/-- C8: a stored legacy document -- a JSON object whose djs field is an
array of bare name strings -- loads as the record set with exactly the
stored names, each with comment and stars absent. -/
theorem C8_legacy_format_load (ns : List String) :
    ∃ S, load_previous_djs (.ok (.json (Json.obj [("djs", Json.arr (ns.map Json.str))])))
        = .ok S
      ∧ ∀ r : DjSupport, r ∈ S ↔ (r.name ∈ ns ∧ r.comment = none ∧ r.stars = none) := by
  cases ns with
  | nil =>
    refine ⟨[], by decide, ?_⟩
    intro r
    simp
  | cons n ns2 =>
    refine ⟨((n :: ns2).dedup).map (fun nm => ⟨nm, none, none⟩), ?_, ?_⟩
    · have hold2 : optMapM asString (ns2.map Json.str) = some ns2 :=
        optMapM_map_eq_some _ _ _ (fun a _ => rfl)
      have hdn : decodeDjSupport (Json.str n) = none := rfl
      simp [load_previous_djs, decodeDjStorage, decodeOldDjStorage, jlookup,
        List.find?, optMapM, asString, hdn, hold2]
    · intro r
      constructor
      · intro hr
        obtain ⟨nm, hnm, hrec⟩ := List.mem_map.mp hr
        subst hrec
        exact ⟨List.mem_dedup.mp hnm, rfl, rfl⟩
      · rintro ⟨hname, hc, hs⟩
        obtain ⟨nm, cm, st⟩ := r
        cases hc
        cases hs
        exact List.mem_map.mpr ⟨nm, List.mem_dedup.mpr hname, rfl⟩

theorem chSplit_ne_nil (sep : Char) (cs : List Char) : chSplit sep cs ≠ [] := by
  cases cs with
  | nil => simp [chSplit]
  | cons c cs =>
    simp only [chSplit]
    split
    · simp
    · split <;> simp

theorem chSplit_concat_sep (sep : Char) (cs : List Char) :
    chSplit sep (cs ++ [sep]) = chSplit sep cs ++ [[]] := by
  induction cs with
  | nil => simp [chSplit]
  | cons x xs ih =>
    obtain ⟨h, t, hht⟩ := List.exists_cons_of_ne_nil (chSplit_ne_nil sep xs)
    simp only [List.cons_append, chSplit]
    by_cases hx : x = sep <;> simp [hx, ih, hht]

theorem chSplit_concat_ne (sep d : Char) (hd : d ≠ sep) (cs : List Char) :
    chSplit sep (cs ++ [d]) = modifyLastApp d (chSplit sep cs) := by
  induction cs with
  | nil => simp [chSplit, modifyLastApp, hd]
  | cons x xs ih =>
    obtain ⟨h, t, hht⟩ := List.exists_cons_of_ne_nil (chSplit_ne_nil sep xs)
    rw [hht] at ih
    cases t with
    | nil =>
      simp only [modifyLastApp] at ih
      simp only [List.cons_append, chSplit]
      by_cases hx : x = sep <;> simp [hx, ih, hht, modifyLastApp]
    | cons t1 t2 =>
      simp only [modifyLastApp] at ih
      simp only [List.cons_append, chSplit]
      by_cases hx : x = sep <;> simp [hx, ih, hht, modifyLastApp]

theorem modifyLastApp_getLastD (d : Char) :
    ∀ (S : List (List Char)) (u : List Char),
      (modifyLastApp d S).getLastD u = S.getLastD [] ++ [d] := by
  intro S
  induction S with
  | nil => intro u; simp [modifyLastApp]
  | cons l S ih =>
    intro u
    cases S with
    | nil => simp [modifyLastApp, List.getLastD_cons]
    | cons l2 S2 =>
      have hmod : modifyLastApp d (l :: l2 :: S2) = l :: modifyLastApp d (l2 :: S2) := rfl
      rw [hmod, List.getLastD_cons, ih l]
      simp [List.getLastD_cons]

theorem modifyLastApp_filter_getLast? (d : Char) :
    ∀ S : List (List Char),
      ((modifyLastApp d S).filter (fun s => !s.isEmpty)).getLast?
        = some (S.getLastD [] ++ [d]) := by
  intro S
  induction S with
  | nil => simp [modifyLastApp]
  | cons l S ih =>
    cases S with
    | nil => simp [modifyLastApp]
    | cons l2 S2 =>
      have hmod : modifyLastApp d (l :: l2 :: S2) = l :: modifyLastApp d (l2 :: S2) := rfl
      rw [hmod, List.filter_cons]
      have hne : ((modifyLastApp d (l2 :: S2)).filter (fun s => !s.isEmpty)) ≠ [] := by
        intro hnil
        rw [hnil] at ih
        simp at ih
      obtain ⟨a, as, ha⟩ := List.exists_cons_of_ne_nil hne
      rw [ha] at ih
      by_cases hl : l.isEmpty = true
      · rw [if_neg (by simp [hl]), ha, ih]
        simp [List.getLastD_cons]
      · rw [if_pos (by simp [hl]), ha, List.getLast?_cons_cons, ih]
        simp [List.getLastD_cons]

theorem trimEndSlashes_concat_slash (url : List Char) :
    trimEndSlashes (url ++ ['/']) = trimEndSlashes url := by
  unfold trimEndSlashes
  simp [List.dropWhile_cons]

theorem trimEndSlashes_concat_ne (d : Char) (hd : d ≠ '/') (url : List Char) :
    trimEndSlashes (url ++ [d]) = url ++ [d] := by
  unfold trimEndSlashes
  simp [List.dropWhile_cons, hd]

/-- C4 counterexample: for the url "/" there is no non-empty path
segment, and extract_campaign_name returns the empty string, not
"unknown" as the claim states (the unwrap_or("unknown") default is
unreachable because rsplit always yields at least one piece). -/
theorem C4_unknown_counterexample :
    lastNonEmptySegment "/".toList = none
    ∧ extract_campaign_name "/".toList = []
    ∧ extract_campaign_name "/".toList ≠ "unknown".toList :=
  ⟨by decide, by decide, by decide⟩

/-- C4 amended: the derived identifier equals the last non-empty path
segment of the url when one exists, and equals the empty string (never
the "unknown" fallback) when the url is empty or consists only of
slashes -- stated as one equation through Option.getD. -/
theorem C4_identifier_is_last_segment (url : List Char) :
    extract_campaign_name url = (lastNonEmptySegment url).getD [] := by
  induction url using List.reverseRecOn with
  | nil => decide
  | append_singleton url d ih =>
    by_cases hd : d = '/'
    · subst hd
      calc extract_campaign_name (url ++ ['/'])
          = extract_campaign_name url := by
            unfold extract_campaign_name
            rw [trimEndSlashes_concat_slash]
        _ = (lastNonEmptySegment url).getD [] := ih
        _ = (lastNonEmptySegment (url ++ ['/'])).getD [] := by
            unfold lastNonEmptySegment
            rw [chSplit_concat_sep]
            simp [List.filter_append]
    · have hl3 := chSplit_concat_ne '/' d hd url
      have hlhs : extract_campaign_name (url ++ [d])
          = (chSplit '/' url).getLastD [] ++ [d] := by
        unfold extract_campaign_name
        rw [trimEndSlashes_concat_ne d hd, hl3, modifyLastApp_getLastD]
      have hrhs : lastNonEmptySegment (url ++ [d])
          = some ((chSplit '/' url).getLastD [] ++ [d]) := by
        unfold lastNonEmptySegment
        rw [hl3, modifyLastApp_filter_getLast?]
      rw [hlhs, hrhs]
      rfl

/-- C10: the storage blob name of a target depends only on the
configured blob-name prefix and the identifier derived from the url
(never on the full url): two urls with the same derived identifier map
to the same blob. -/
theorem C10_blob_key_collision (pfx u1 u2 : List Char)
    (h : extract_campaign_name u1 = extract_campaign_name u2) :
    get_blob_name pfx (mkCampaign u1) = get_blob_name pfx (mkCampaign u2) := by
  simp [get_blob_name, mkCampaign, h]

/-- Closed instance of C10: two distinct urls whose last non-empty path
segment is pmqtne share one blob name. -/
theorem C10_blob_key_collision_witness :
    ("https://inflyteapp.com/r/pmqtne".toList ≠ "https://other.example/x/pmqtne/".toList)
    ∧ get_blob_name ("dj_list".toList) (mkCampaign "https://inflyteapp.com/r/pmqtne".toList)
      = get_blob_name ("dj_list".toList) (mkCampaign "https://other.example/x/pmqtne/".toList) :=
  ⟨by decide, C10_blob_key_collision _ _ _ (by decide)⟩

/-- C3 counterexample: when the plain-list element precedes the profile
card among the Support section's siblings, the tier-3 bare entry for Ben
is inserted first, and the later tier-1 insert (structurally different:
it carries the comment) does not deduplicate against it -- the final set
contains two records named Ben, not exactly one. -/
theorem C3_tier_order_counterexample :
    fetch_dj_list docListFirst
      = [⟨"Ben", none, none⟩, ⟨"Ben", some "cool", none⟩]
    ∧ ((fetch_dj_list docListFirst).filter (fun r => r.name == "Ben")).length = 2 :=
  ⟨by decide, by decide⟩

/-- C3 amended: when the tier-1 profile card is processed no later than
the plain-list text -- its sibling element precedes the list's, or both
sit in one sibling element (cards are processed before the plain-list
check within an element) -- the final set contains exactly one record
named Ben, carrying the card's comment; tier 3 deduplicates by name
against the already-accumulated richer entry. -/
theorem C3_tier_precedence_amended :
    fetch_dj_list docCardFirst = [⟨"Ben", some "cool", none⟩]
    ∧ fetch_dj_list docSameElem = [⟨"Ben", some "cool", none⟩]
    ∧ ((fetch_dj_list docCardFirst).filter (fun r => r.name == "Ben")).length = 1 :=
  ⟨by decide, by decide, by decide⟩

theorem charBytes_pos (c : Char) : 1 ≤ charBytes c := by
  unfold charBytes
  split_ifs <;> omega

theorem length_le_utf8Len (l : List Char) : l.length ≤ utf8Len l := by
  induction l with
  | nil => simp [utf8Len]
  | cons c cs ih =>
    have hc := charBytes_pos c
    simp only [utf8Len, List.map_cons, List.sum_cons, List.length_cons]
    simp only [utf8Len] at ih
    omega

theorem stringMk_ne_empty {l : List Char} (h : l ≠ []) : String.mk l ≠ "" := by
  intro hc
  exact h (congrArg String.data hc)

theorem goodName_extractCard {full : List Char} {m : Nat} {r : DjSupport}
    (h : extractCard full m = some r) : GoodName r := by
  simp only [extractCard] at h
  split at h
  · split at h
    · exact absurd h (by simp)
    · split at h
      case isTrue hg =>
        rw [Bool.and_eq_true] at hg
        obtain ⟨hg1, hg2⟩ := hg
        injection h with h
        subst h
        exact ⟨stringMk_ne_empty (by simpa using hg1), of_decide_eq_true hg2⟩
      case isFalse => exact absurd h (by simp)
  · exact absurd h (by simp)

theorem mem_applyCard {m : Nat} {djs : List DjSupport} {full : List Char}
    {r : DjSupport} (h : r ∈ applyCard m djs full) : r ∈ djs ∨ GoodName r := by
  cases hx : extractCard full m with
  | none =>
    simp only [applyCard, hx] at h
    exact Or.inl h
  | some rec =>
    simp only [applyCard, hx] at h
    rcases mem_listInsert h with h1 | h1
    · exact Or.inr (h1 ▸ goodName_extractCard hx)
    · exact Or.inl h1

theorem mem_foldl_or {β : Type} (P : DjSupport → Prop)
    (f : List DjSupport → β → List DjSupport) :
    ∀ (l : List β) (acc : List DjSupport) (r : DjSupport),
      (∀ acc2 b, b ∈ l → ∀ r2, r2 ∈ f acc2 b → r2 ∈ acc2 ∨ P r2) →
      r ∈ l.foldl f acc → r ∈ acc ∨ P r := by
  intro l
  induction l with
  | nil =>
    intro acc r _ h
    exact Or.inl h
  | cons b bs ih =>
    intro acc r hf h
    simp only [List.foldl_cons] at h
    have step := ih (f acc b) r
      (fun acc2 b2 hb2 => hf acc2 b2 (List.mem_cons_of_mem b hb2)) h
    rcases step with h1 | h1
    · exact hf acc b (List.mem_cons_self b bs) r h1
    · exact Or.inr h1

theorem mem_tier12 {djs : List DjSupport} {e : Node} {r : DjSupport}
    (h : r ∈ tier12 djs e) : r ∈ djs ∨ GoodName r := by
  simp only [tier12] at h
  split at h
  · split at h
    · exact mem_foldl_or GoodName _ _ djs r
        (fun acc2 d _ r2 hr2 => mem_applyCard hr2) h
    · exact mem_applyCard h
  · exact Or.inl h

theorem mem_tier3 {djs : List DjSupport} {t : List Char} {r : DjSupport}
    (h : r ∈ tier3 djs t) : r ∈ djs ∨ GoodName r := by
  simp only [tier3] at h
  split at h
  · exact Or.inl h
  case _ suffixText _ =>
    refine mem_foldl_or GoodName _ _ djs r (fun acc2 nm hnm r2 hr2 => ?_) h
    rcases List.mem_filter.mp hnm with ⟨_, hpred⟩
    rw [Bool.and_eq_true, Bool.and_eq_true, Bool.and_eq_true] at hpred
    obtain ⟨⟨⟨hp1, _⟩, _⟩, hp4⟩ := hpred
    split at hr2
    · exact Or.inl hr2
    · rcases mem_listInsert hr2 with h1 | h1
      · subst h1
        exact Or.inr ⟨stringMk_ne_empty (by simpa using hp1), of_decide_eq_true hp4⟩
      · exact Or.inl h1

theorem mem_processElem {djs : List DjSupport} {e : Node} {r : DjSupport}
    (h : r ∈ processElem djs e) : r ∈ djs ∨ GoodName r := by
  rcases mem_tier3 h with h1 | h1
  · exact mem_tier12 h1
  · exact Or.inr h1

theorem mem_processSiblings :
    ∀ (sibs : List Node) (djs : List DjSupport) (r : DjSupport),
      r ∈ processSiblings djs sibs → r ∈ djs ∨ GoodName r := by
  intro sibs
  induction sibs with
  | nil =>
    intro djs r h
    exact Or.inl h
  | cons n ns ih =>
    intro djs r h
    cases n with
    | text s =>
      simp only [processSiblings] at h
      exact ih djs r h
    | elem tag cs =>
      simp only [processSiblings] at h
      split at h
      · exact Or.inl h
      · rcases ih _ r h with h1 | h1
        · exact mem_processElem h1
        · exact Or.inr h1

/-- C9: every record produced by any extraction tier satisfies the name
guard -- the name is non-empty and its UTF-8 byte length (Rust str::len)
is under 100; consequently its character count is under 100, so a
150-character candidate name can never appear in the extracted set. -/
theorem C9_extracted_names_guarded (doc : Node) (r : DjSupport)
    (h : r ∈ fetch_dj_list doc) :
    r.name ≠ "" ∧ utf8Len r.name.toList < 100
      ∧ r.name.length < 100 ∧ r.name.length ≠ 150 := by
  have hg : GoodName r := by
    unfold fetch_dj_list at h
    split at h
    · exact absurd h (List.not_mem_nil r)
    · rcases mem_processSiblings _ _ _ h with h1 | h1
      · exact absurd h1 (List.not_mem_nil r)
      · exact h1
  obtain ⟨h1, h2⟩ := hg
  have hlen : r.name.length ≤ utf8Len r.name.toList := length_le_utf8Len r.name.data
  exact ⟨h1, h2, by omega, by omega⟩

/-- Closed instance of C9: the Ben record extracted from a tier-1 card
satisfies the name guard. -/
theorem C9_extracted_names_guarded_witness :
    (⟨"Ben", some "cool", none⟩ : DjSupport).name ≠ ""
    ∧ utf8Len (⟨"Ben", some "cool", none⟩ : DjSupport).name.toList < 100
    ∧ (⟨"Ben", some "cool", none⟩ : DjSupport).name.length < 100
    ∧ (⟨"Ben", some "cool", none⟩ : DjSupport).name.length ≠ 150 :=
  C9_extracted_names_guarded docCardFirst ⟨"Ben", some "cool", none⟩ (by decide)

end Inflyte
